import Mathlib

/-!
Verification of the hl-go signing core (package `signing` and `utils`).

The Go code is shallowly embedded: Go byte slices become `List Nat`
(each entry < 256), Go `int64` becomes `Int` with explicit reduction
modulo 2^64 where the code converts to `uint64`, fallible Go functions
return `Except String _`.  The external cryptographic primitives
(`crypto.Keccak256`, `crypto.Sign`, `apitypes.TypedData.HashStruct` from
go-ethereum) are not code of this repository; they are taken as explicit
function parameters of the embedded definitions, so every theorem below
is quantified over them and speaks only about the byte-layout and
data-flow logic that this repository implements.

Actions are represented as ordered key/value lists (`Val.map`).
Modelled from the spec: the repository builds every action that is
signed with `signing.NewOrderedMap` (whose definition is outside the
provided sources); per the spec the action representation is "an
explicit ordered key/value list" whose canonical-encoding order "is a
property of the data".
-/

deriving instance DecidableEq for Except

namespace HlGo

/-- Big-endian 8-byte encoding of a `uint64` value, as produced by
`binary.BigEndian.PutUint64` in `ActionHash` (signing.go). -/
def be64 (n : Nat) : List Nat :=
  [n / 2 ^ 56 % 256, n / 2 ^ 48 % 256, n / 2 ^ 40 % 256, n / 2 ^ 32 % 256,
   n / 2 ^ 24 % 256, n / 2 ^ 16 % 256, n / 2 ^ 8 % 256, n % 256]

/-- Go's `uint64(x)` conversion of an `int64` value. -/
def toU64 (i : Int) : Nat := (i % (2 ^ 64 : Int)).toNat

/-- Big-endian numeric value of a byte string (used to compare the hex
rendering of signature scalars with arbitrary-precision integer
formatting). -/
def beNat (b : List Nat) : Nat := b.foldl (fun a x => a * 256 + x) 0

/-- `common.BytesToHash` from go-ethereum: keep the last 32 bytes and
left-pad with zero bytes to exactly 32 bytes. -/
def bytesToHash32 (b : List Nat) : List Nat :=
  let t := b.drop (b.length - 32)
  List.replicate (32 - t.length) 0 ++ t

/-- Value of a hexadecimal digit character, `none` when the character is
not a hex digit (mirrors what `strconv.ParseUint(_, 16, 8)` accepts per
digit). -/
def hexDigit? (c : Char) : Option Nat :=
  if '0' ≤ c ∧ c ≤ '9' then some (c.toNat - '0'.toNat)
  else if 'a' ≤ c ∧ c ≤ 'f' then some (c.toNat - 'a'.toNat + 10)
  else if 'A' ≤ c ∧ c ≤ 'F' then some (c.toNat - 'A'.toNat + 10)
  else none

/-- Decode consecutive 2-character groups of a hex string into bytes.
Mirrors the loop in `utils.AddressToBytes`: the byte count is
`len(address)/2`, so a final unpaired character is silently dropped, and
no length check is performed. -/
def decodeHexPairs : List Char → Except String (List Nat)
  | c1 :: c2 :: rest =>
    match hexDigit? c1, hexDigit? c2 with
    | some d1, some d2 =>
      match decodeHexPairs rest with
      | .ok bs => .ok ((16 * d1 + d2) :: bs)
      | .error e => .error e
    | _, _ => .error ("invalid hex address: " ++ String.mk [c1, c2])
  | _ => .ok []

/-- `strings.TrimPrefix(_, "0x")`, on the character list of the
string. -/
def trim0x : List Char → List Char
  | '0' :: 'x' :: rest => rest
  | cs => cs

/-- `utils.AddressToBytes`: strip an optional `0x` prefix then decode
hex pairs.  There is no check that the content is exactly 40 hex
characters. -/
def AddressToBytes (address : String) : Except String (List Nat) :=
  decodeHexPairs (trim0x address.data)

/-- Dynamic value type for actions: the Go code passes
`map[string]any` / `[]any` values whose leaves are strings, booleans,
signed and unsigned integers and byte slices.  Maps are ordered lists of
key/value pairs (insertion order, see the header comment). -/
inductive Val where
  | str : String → Val
  | uint : Nat → Val
  | int : Int → Val
  | bool : Bool → Val
  | bytes : List Nat → Val
  | arr : List Val → Val
  | map : List (String × Val) → Val

/-- UTF-8 bytes of a string (Go strings are raw UTF-8 bytes). -/
def strBytes (s : String) : List Nat :=
  (s.data.map (fun c => (String.utf8EncodeChar c).map (·.toNat))).flatten

/-- msgpack header for a string of the given byte length
(fixstr / str8 / str16 / str32). -/
def strHeader (n : Nat) : List Nat :=
  if n < 32 then [0xa0 + n]
  else if n < 2 ^ 8 then [0xd9, n]
  else if n < 2 ^ 16 then [0xda, n / 256, n % 256]
  else [0xdb, n / 2 ^ 24 % 256, n / 2 ^ 16 % 256, n / 256 % 256, n % 256]

/-- msgpack header for a binary blob (bin8 / bin16 / bin32). -/
def binHeader (n : Nat) : List Nat :=
  if n < 2 ^ 8 then [0xc4, n]
  else if n < 2 ^ 16 then [0xc5, n / 256, n % 256]
  else [0xc6, n / 2 ^ 24 % 256, n / 2 ^ 16 % 256, n / 256 % 256, n % 256]

/-- msgpack header for a map with the given entry count
(fixmap / map16 / map32). -/
def mapHeader (n : Nat) : List Nat :=
  if n < 16 then [0x80 + n]
  else if n < 2 ^ 16 then [0xde, n / 256, n % 256]
  else [0xdf, n / 2 ^ 24 % 256, n / 2 ^ 16 % 256, n / 256 % 256, n % 256]

/-- msgpack header for an array (fixarray / array16 / array32). -/
def arrHeader (n : Nat) : List Nat :=
  if n < 16 then [0x90 + n]
  else if n < 2 ^ 16 then [0xdc, n / 256, n % 256]
  else [0xdd, n / 2 ^ 24 % 256, n / 2 ^ 16 % 256, n / 256 % 256, n % 256]

/-- msgpack encoding of a string value. -/
def encStr (s : String) : List Nat :=
  strHeader (strBytes s).length ++ strBytes s

mutual

/-- Canonical msgpack encoding as produced by `msgpack.Marshal`
(vmihailenco/msgpack v5 with default options) on the dynamic values the
repository signs: `uint64` is always the full-width tag `0xcf` plus
8 big-endian bytes and `int64` the tag `0xd3` (compact-ints is off by
default), strings/bools/maps/arrays use the native tags, and map entries
are emitted in the order of the (ordered) action representation. -/
def encVal : Val → List Nat
  | .str s => encStr s
  | .uint n => 0xcf :: be64 n
  | .int i => 0xd3 :: be64 (toU64 i)
  | .bool b => [if b then 0xc3 else 0xc2]
  | .bytes bs => binHeader bs.length ++ bs
  | .arr vs => arrHeader vs.length ++ encList vs
  | .map kvs => mapHeader kvs.length ++ encPairs kvs

/-- Concatenated encodings of array elements. -/
def encList : List Val → List Nat
  | [] => []
  | v :: vs => encVal v ++ encList vs

/-- Concatenated encodings of map entries (key then value). -/
def encPairs : List (String × Val) → List Nat
  | [] => []
  | (k, v) :: kvs => encStr k ++ encVal v ++ encPairs kvs

end

/-- `signing.ActionHash` (signing.go): msgpack-encode the action, append
the nonce as 8 big-endian bytes, append the vault section (`0x00` when
absent, `0x01` plus the decoded address bytes when present), append —
only when `expiresAfter` is present — a `0x00` marker and the timestamp
as 8 big-endian bytes, and Keccak-256 the result.  `keccak` abstracts
`crypto.Keccak256`.  (msgpack encoding of these dynamic values cannot
fail, so the marshal-error branch of the source is unreachable here.) -/
def ActionHash (keccak : List Nat → List Nat) (action : Val)
    (vaultAddress : Option String) (nonce : Int) (expiresAfter : Option Int) :
    Except String (List Nat) :=
  let vsec : Except String (List Nat) :=
    match vaultAddress with
    | none => .ok [0x00]
    | some addr =>
      match AddressToBytes addr with
      | .ok b => .ok (0x01 :: b)
      | .error e => .error ("invalid vault address: " ++ e)
  match vsec with
  | .error e => .error e
  | .ok vbytes =>
    let data := encVal action ++ be64 (toU64 nonce) ++ vbytes
    let data :=
      match expiresAfter with
      | none => data
      | some t => data ++ 0x00 :: be64 (toU64 t)
    .ok (keccak data)

/-! ### Wire converters (`utils/utils.go`)

Go `float64` values are modelled as exact rationals: `fmt.Sprintf("%.8f", x)`
becomes rounding `x·10^8` to an integer and rendering it with 8 decimal
digits, and `strconv.ParseFloat` of that string gives back exactly the
rounded value.  (Go rounds the decimal rendering of the underlying
binary value; on the concrete inputs appearing in the claims the two
agree.) -/

/-- Remove all trailing occurrences of a character
(`strings.TrimRight` with a one-character cut set). -/
def trimRightChar (s : String) (c : Char) : String :=
  ⟨(s.data.reverse.dropWhile (· = c)).reverse⟩

/-- Left-pad a string with `'0'` to 8 characters (the fractional part of
`%.8f` always has exactly 8 digits). -/
def padFrac8 (s : String) : String :=
  ⟨List.replicate (8 - s.length) '0'⟩ ++ s

/-- The string `fmt.Sprintf("%.8f", x)` produces: sign, integer part,
`'.'`, and exactly 8 fractional digits of the value of `x` rounded to
8 decimal places. -/
def sprintf8f (x : ℚ) : String :=
  let r : ℤ := round (x * 10 ^ 8)
  let sign := if r < 0 ∨ (r = 0 ∧ x < 0) then "-" else ""
  sign ++ toString (r.natAbs / 10 ^ 8) ++ "." ++ padFrac8 (toString (r.natAbs % 10 ^ 8))

/-- `utils.FloatToWire`: format with 8 decimal places, reject when the
rounding moved the value by at least `1e-12`, rewrite `-0.00000000` to
`0.00000000`, then strip trailing zeros and a trailing bare decimal
point. -/
def FloatToWire (x : ℚ) : Except String String :=
  let rounded := sprintf8f x
  let parsedBack : ℚ := (round (x * 10 ^ 8) : ℤ) / 10 ^ 8
  if |parsedBack - x| ≥ 1 / 10 ^ 12 then
    .error "float_to_wire causes rounding"
  else
    let rounded := if rounded = "-0.00000000" then "0.00000000" else rounded
    let normalized := trimRightChar rounded '0'
    let normalized := trimRightChar normalized '.'
    .ok normalized

/-- `utils.FloatToInt`: scale by `10^power` and reject when the scaled
value is not within `1e-3` of its nearest integer. -/
def FloatToInt (x : ℚ) (power : ℕ) : Except String ℤ :=
  let withDecimals := x * 10 ^ power
  if |(round withDecimals : ℚ) - withDecimals| ≥ 1 / 10 ^ 3 then
    .error "float_to_int causes rounding"
  else
    .ok (round withDecimals)

/-- `utils.FloatToIntForHashing`: `FloatToInt` with 8 decimal places. -/
def FloatToIntForHashing (x : ℚ) : Except String ℤ := FloatToInt x 8

/-! ### EIP-712 envelope construction and signing (`signing/signing.go`)

`apitypes.TypedData.HashStruct` and `crypto.Sign` belong to go-ethereum
and are abstracted as the parameters `hashStruct` and `ecSign` (the
private key is folded into `ecSign`). -/

/-- A single field declaration of an EIP-712 type (`apitypes.Type`). -/
structure TDType where
  name : String
  type : String
deriving DecidableEq

/-- `apitypes.TypedDataDomain`; `chainId` is the `*math.HexOrDecimal256`
big integer. -/
structure TypedDataDomain where
  name : String
  version : String
  chainId : ℤ
  verifyingContract : String
deriving DecidableEq

/-- `apitypes.TypedData` (the `Types` map is kept as an ordered
association list; only lookups are performed on it). -/
structure TypedData where
  types : List (String × List TDType)
  primaryType : String
  domain : TypedDataDomain
  message : List (String × Val)

/-- `types.Signature`: two hex strings and the recovery indicator. -/
structure Signature where
  R : String
  S : String
  V : Nat
deriving DecidableEq

/-- Go map assignment `m[k] = v` on the association-list model:
overwrite the existing entry or append a new one. -/
def mapSet (m : List (String × Val)) (k : String) (v : Val) : List (String × Val) :=
  if m.any (fun kv => kv.1 = k) then
    m.map (fun kv => if kv.1 = k then (k, v) else kv)
  else m ++ [(k, v)]

/-- The `EIP712Domain` field list used by both payload builders. -/
def eip712DomainFields : List TDType :=
  [⟨"name", "string"⟩, ⟨"version", "string"⟩, ⟨"chainId", "uint256"⟩,
   ⟨"verifyingContract", "address"⟩]

/-- `apitypes.TypedDataDomain.Map()` restricted to the four fields the
repository always sets. -/
def domainMap (d : TypedDataDomain) : List (String × Val) :=
  [("name", .str d.name), ("version", .str d.version), ("chainId", .int d.chainId),
   ("verifyingContract", .str d.verifyingContract)]

/-- `big.Int.SetString(_, 16)`: value of a hex string, `0` when parsing
fails (every call site of the repository parses the literal `"66eee"`,
which succeeds). -/
def setStringHex (s : String) : ℤ :=
  if s.data ≠ [] ∧ s.data.all (fun c => (hexDigit? c).isSome) then
    s.data.foldl (fun a c => a * 16 + ((hexDigit? c).getD 0 : ℤ)) 0
  else 0

/-- `signing.ConstructPhantomAgent`: source `"a"` on mainnet, `"b"` on
testnet; the action hash is widened to a fixed 32-byte value
(`common.BytesToHash`). -/
def ConstructPhantomAgent (hash : List Nat) (isMainnet : Bool) : List (String × Val) :=
  [("source", .str (if isMainnet then "a" else "b")),
   ("connectionId", .bytes (bytesToHash32 hash))]

/-- `signing.L1Payload`: the fixed exchange-action envelope. -/
def L1Payload (phantomAgent : List (String × Val)) : TypedData :=
  { types := [("Agent", [⟨"source", "string"⟩, ⟨"connectionId", "bytes32"⟩]),
              ("EIP712Domain", eip712DomainFields)]
    primaryType := "Agent"
    domain := ⟨"Exchange", "1", 1337, "0x0000000000000000000000000000000000000000"⟩
    message := phantomAgent }

/-- Character-level prefix test (`strings.HasPrefix`). -/
def hasPrefixChars : List Char → List Char → Bool
  | [], _ => true
  | _ :: _, [] => false
  | p :: ps, c :: cs => p = c && hasPrefixChars ps cs

/-- `strings.HasPrefix(s, pre)`. -/
def goHasPrefix (s pre : String) : Bool :=
  hasPrefixChars pre.data s.data

/-- The integer widening `UserSignedPayload` applies to fields whose
declared type starts with `uint` or `int`: Go converts `int64`, `uint64`,
`int` and `*big.Int` values to `*big.Int` and leaves other dynamic types
unchanged.  `Val.int` models both the machine integers and the resulting
big integer (the distinction is invisible to every claim), so the
conversion maps `Val.uint` to `Val.int` and fixes everything else. -/
def widenIfInt (t : String) (v : Val) : Val :=
  if goHasPrefix t "uint" ∨ goHasPrefix t "int" then
    match v with
    | .uint n => .int n
    | v => v
  else v

/-- `signing.UserSignedPayload`: take the chain id from the action's
`signatureChainId` field (defaulting to `"0x66eee"`), and build the
message by walking `signatureTypes` in declared order, copying only the
declared fields that are present in the action (a declared-but-missing
field is skipped, and no error is produced). -/
def UserSignedPayload (action : List (String × Val)) (signatureTypes : List TDType)
    (primaryType : String) : TypedData :=
  let chainIDHex :=
    match List.lookup "signatureChainId" action with
    | some (.str s) => s
    | _ => "0x66eee"
  let chainID := setStringHex ⟨chainIDHex.data.drop 2⟩
  let message := signatureTypes.foldl
    (fun m ft =>
      match List.lookup ft.name action with
      | some v => mapSet m ft.name (widenIfInt ft.type v)
      | none => m) []
  { types := [(primaryType, signatureTypes), ("EIP712Domain", eip712DomainFields)]
    primaryType := primaryType
    domain := ⟨"HyperliquidSignTransaction", "1", chainID,
               "0x0000000000000000000000000000000000000000"⟩
    message := message }

/-- Lowercase hex character of a nibble (the digit table
`"0123456789abcdef"`; inputs are always below 16 here). -/
def hexChar : Nat → Char
  | 0 => '0' | 1 => '1' | 2 => '2' | 3 => '3' | 4 => '4' | 5 => '5' | 6 => '6'
  | 7 => '7' | 8 => '8' | 9 => '9' | 10 => 'a' | 11 => 'b' | 12 => 'c' | 13 => 'd'
  | 14 => 'e' | _ => 'f'

/-- `common.Bytes2Hex`: two lowercase hex characters per byte. -/
def bytes2hexChars (b : List Nat) : List Char :=
  (b.map (fun v => [hexChar (v / 16), hexChar (v % 16)])).flatten

/-- The stripping loop of `formatHex` in `signTypedData`: drop leading
`'0'` characters while more than one character remains. -/
def trimHexZeros : List Char → List Char
  | [] => []
  | [c] => [c]
  | c :: cs => if c = '0' then trimHexZeros cs else c :: cs

/-- `formatHex` from `signTypedData`: `"0x"` plus the hex rendering with
leading zeros removed but at least one digit kept. -/
def formatHex (b : List Nat) : String :=
  "0x" ++ String.mk (trimHexZeros (bytes2hexChars b))

/-- `signing.signTypedData`: hash the domain and the message, combine
them under the `0x19 0x01` prefix, Keccak-256, sign, split the 65-byte
signature into `r`, `s` and the recovery byte, normalize `v` to 27/28,
and render `r` and `s` with `formatHex`.  (`crypto.Sign` always returns
65 bytes; out-of-range indexing is modelled totally with `getD`.) -/
def signTypedData (keccak : List Nat → List Nat)
    (hashStruct : TypedData → String → List (String × Val) → Except String (List Nat))
    (ecSign : List Nat → Except String (List Nat)) (typedData : TypedData) :
    Except String Signature :=
  match hashStruct typedData "EIP712Domain" (domainMap typedData.domain) with
  | .error e => .error ("failed to hash domain: " ++ e)
  | .ok domainSeparator =>
    match hashStruct typedData typedData.primaryType typedData.message with
    | .error e => .error ("failed to hash message: " ++ e)
    | .ok typedDataHash =>
      let hash := keccak (0x19 :: 0x01 :: (domainSeparator ++ typedDataHash))
      match ecSign hash with
      | .error e => .error ("failed to sign: " ++ e)
      | .ok sig =>
        let r := sig.take 32
        let s := (sig.drop 32).take 32
        let v := sig.getD 64 0
        let v := if v < 27 then v + 27 else v
        .ok ⟨formatHex r, formatHex s, v⟩

/-- `signing.SignL1Action`: action hash, phantom agent, L1 payload,
typed-data signing. -/
def SignL1Action (keccak : List Nat → List Nat)
    (hashStruct : TypedData → String → List (String × Val) → Except String (List Nat))
    (ecSign : List Nat → Except String (List Nat)) (action : Val)
    (vaultAddress : Option String) (nonce : Int) (expiresAfter : Option Int)
    (isMainnet : Bool) : Except String Signature :=
  match ActionHash keccak action vaultAddress nonce expiresAfter with
  | .error e => .error e
  | .ok hash => signTypedData keccak hashStruct ecSign
      (L1Payload (ConstructPhantomAgent hash isMainnet))

/-- `signing.SignUserSignedAction`.  The Go function writes
`signatureChainId` and `hyperliquidChain` into the caller-supplied map
before building the payload; the map is passed by reference, so this
mutation is visible to the caller.  The embedding passes the state
explicitly: the second component of the result is the caller's action
map after the call. -/
def SignUserSignedAction (keccak : List Nat → List Nat)
    (hashStruct : TypedData → String → List (String × Val) → Except String (List Nat))
    (ecSign : List Nat → Except String (List Nat)) (action : List (String × Val))
    (signatureTypes : List TDType) (primaryType : String) (isMainnet : Bool) :
    Except String Signature × List (String × Val) :=
  let action := mapSet action "signatureChainId" (.str "0x66eee")
  let action := mapSet action "hyperliquidChain"
    (.str (if isMainnet then "Mainnet" else "Testnet"))
  (signTypedData keccak hashStruct ecSign (UserSignedPayload action signatureTypes primaryType),
   action)

/-- `MultiSigEnvelopeSignTypes` (signing.go). -/
def MultiSigEnvelopeSignTypes : List TDType :=
  [⟨"hyperliquidChain", "string"⟩, ⟨"multiSigActionHash", "bytes32"⟩, ⟨"nonce", "uint64"⟩]

/-- `USDSendSignTypes` (signing.go). -/
def USDSendSignTypes : List TDType :=
  [⟨"hyperliquidChain", "string"⟩, ⟨"destination", "string"⟩, ⟨"amount", "string"⟩,
   ⟨"time", "uint64"⟩]

/-- `signing.SignMultiSigAction`: hash a copy of the action without its
`type` key, widen the digest to a fixed 32-byte value, and sign the
two-field envelope through the user-signed path.  (The Go copy loop
iterates the map in unspecified order; the embedding keeps the list
order, which the repository's own notes acknowledge as equivalent for
the encoded bytes.)  The caller-supplied action is only read; the
envelope map mutated inside `SignUserSignedAction` is local. -/
def SignMultiSigAction (keccak : List Nat → List Nat)
    (hashStruct : TypedData → String → List (String × Val) → Except String (List Nat))
    (ecSign : List Nat → Except String (List Nat)) (action : List (String × Val))
    (isMainnet : Bool) (vaultAddress : Option String) (nonce : Int)
    (expiresAfter : Option Int) : Except String Signature :=
  let actionWithoutTag := action.filter (fun kv => kv.1 ≠ "type")
  match ActionHash keccak (.map actionWithoutTag) vaultAddress nonce expiresAfter with
  | .error e => .error ("failed to compute multi-sig action hash: " ++ e)
  | .ok hashBytes =>
    let multiSigActionHash := bytesToHash32 hashBytes
    let envelope : List (String × Val) :=
      [("multiSigActionHash", .bytes multiSigActionHash), ("nonce", .int nonce)]
    (SignUserSignedAction keccak hashStruct ecSign envelope MultiSigEnvelopeSignTypes
      "HyperliquidTransaction:SendMultiSig" isMainnet).1

/-! ### Spec-side definitions

These follow the wording of the specification (not the Go control flow)
and are compared against the embedded source functions in the theorems
below. -/

/-- The expiry section of the hash input as the spec words it: absent
expiry contributes no bytes at all; a present expiry contributes one
`0x00` marker byte and the timestamp as 8 big-endian bytes. -/
def expiresSection : Option Int → List Nat
  | none => []
  | some t => 0x00 :: be64 (toU64 t)

/-- The address content the spec's validity condition speaks about: the
characters after an optional `0x` prefix. -/
def addrContent (s : String) : List Char :=
  trim0x s.data

/-- The spec's well-formedness condition on a vault address: the content
is exactly 40 hexadecimal characters. -/
def validAddr40 (s : String) : Bool :=
  (addrContent s).length = 40 && (addrContent s).all (fun c => (hexDigit? c).isSome)

/-- Aligned 2-character groups of a hex string are all pairs of hex
digits (a final unpaired character is not constrained, mirroring the
decoding loop's reach). -/
def pairsOk : List Char → Bool
  | c1 :: c2 :: rest => ((hexDigit? c1).isSome && (hexDigit? c2).isSome) && pairsOk rest
  | _ => true

/-- Big-endian base-16 digits of a natural number without leading
zeros (one digit `0` for zero): the digits an arbitrary-precision
integer-to-hex formatter emits. -/
def minHexDigits (n : Nat) : List Nat :=
  if _h : n < 16 then [n] else minHexDigits (n / 16) ++ [n % 16]
decreasing_by exact Nat.div_lt_self (by omega) (by omega)

/-- Arbitrary-precision-integer hex formatting (lowercase, no leading
zeros, at least one digit). -/
def natToHex (n : Nat) : String :=
  String.mk ((minHexDigits n).map hexChar)

/-- The nibble sequence of a byte string (two base-16 digits per
byte). -/
def nibbles (b : List Nat) : List Nat :=
  (b.map (fun v => [v / 16, v % 16])).flatten

/-- Big-endian base-16 value of a digit list. -/
def val16 (ds : List Nat) : Nat := ds.foldl (fun a d => a * 16 + d) 0

/-- Digit-level counterpart of the `formatHex` stripping loop. -/
def trimDigits : List Nat → List Nat
  | [] => []
  | [d] => [d]
  | d :: ds => if d = 0 then trimDigits ds else d :: ds

/-! ### Concrete fixtures (from `verify_encoding_test.go` and
`signing_debug_test.go`) -/

/-- The dummy action `{"type": "dummy", "num": 100000000000}` with `num`
held as a `uint64`, keys in insertion order `type`, `num`. -/
def dummyAction : Val :=
  .map [("type", .str "dummy"), ("num", .uint 100000000000)]

/-- The canonical msgpack bytes the Python SDK produces for
`dummyAction`: `82a474797065a564756d6d79a36e756dcf000000174876e800`. -/
def actionFixtureBytes : List Nat :=
  [0x82, 0xa4, 0x74, 0x79, 0x70, 0x65, 0xa5, 0x64, 0x75, 0x6d, 0x6d, 0x79,
   0xa3, 0x6e, 0x75, 0x6d, 0xcf, 0x00, 0x00, 0x00, 0x17, 0x48, 0x76, 0xe8, 0x00]

/-- The vault address used by `TestL1ActionSigningMatchesWithVault`. -/
def vaultFixture : String := "0x1719884eb866cb12b2287399b15f7db5e7d775ea"

/-- The 20 raw bytes of `vaultFixture`. -/
def vaultFixtureBytes : List Nat :=
  [0x17, 0x19, 0x88, 0x4e, 0xb8, 0x66, 0xcb, 0x12, 0xb2, 0x28,
   0x73, 0x99, 0xb1, 0x5f, 0x7d, 0xb5, 0xe7, 0xd7, 0x75, 0xea]

/-! ### Helper lemmas -/

theorem addressToBytes_eq (s : String) :
    AddressToBytes s = decodeHexPairs (addrContent s) := rfl

theorem decodeHexPairs_length :
    ∀ cs bs, decodeHexPairs cs = .ok bs → bs.length = cs.length / 2
  | [], bs, h => by
    simp only [decodeHexPairs] at h
    cases h
    simp
  | [c], bs, h => by
    simp only [decodeHexPairs] at h
    cases h
    simp
  | c1 :: c2 :: rest, bs, h => by
    simp only [decodeHexPairs] at h
    cases h1 : hexDigit? c1 with
    | none => rw [h1] at h; cases h2 : hexDigit? c2 <;> rw [h2] at h <;> cases h
    | some d1 =>
      rw [h1] at h
      cases h2 : hexDigit? c2 with
      | none => rw [h2] at h; cases h
      | some d2 =>
        rw [h2] at h
        cases hrec : decodeHexPairs rest with
        | ok bs' =>
          rw [hrec] at h
          cases h
          have := decodeHexPairs_length rest bs' hrec
          simp only [List.length_cons, this]
          omega
        | error e => rw [hrec] at h; cases h

theorem encVal_dummyAction : encVal dummyAction = actionFixtureBytes := by
  simp only [dummyAction, encVal, encPairs]
  decide

/-- C1: for every action, nonce and optional expiry, `ActionHash` is the
Keccak-256 of the canonical encoding of the action, the nonce as 8
big-endian bytes, the vault section (`0x00` when absent, `0x01` plus the
20 raw address bytes when present and well-formed), and — in that order,
after the vault section — the expiry section, which contributes no bytes
at all when absent and a `0x00` marker plus 8 big-endian timestamp bytes
when present. -/
theorem actionHash_byte_layout :
    ∀ (keccak : List Nat → List Nat) (a : Val) (n : Int) (e : Option Int),
      ActionHash keccak a none n e =
        .ok (keccak (encVal a ++ be64 (toU64 n) ++ [0x00] ++ expiresSection e)) ∧
      (∀ s b, AddressToBytes s = .ok b →
        ActionHash keccak a (some s) n e =
          .ok (keccak (encVal a ++ be64 (toU64 n) ++ (0x01 :: b) ++ expiresSection e))) ∧
      (∀ s b, AddressToBytes s = .ok b → validAddr40 s = true → b.length = 20) := by
  intro keccak a n e
  refine ⟨?_, ?_, ?_⟩
  · cases e <;> simp [ActionHash, expiresSection]
  · intro s b h
    cases e <;> simp [ActionHash, expiresSection, h]
  · intro s b h hv
    rw [addressToBytes_eq] at h
    have hlen := decodeHexPairs_length _ _ h
    simp only [validAddr40, Bool.and_eq_true, decide_eq_true_eq] at hv
    have : (addrContent s).length = 40 := hv.1
    omega

/-- C1 witness: the vault-address fixture from the repository's tests is
well-formed, decodes to 20 bytes, and produces the stated byte layout. -/
theorem actionHash_byte_layout_witness :
    AddressToBytes vaultFixture = .ok vaultFixtureBytes ∧
    validAddr40 vaultFixture = true ∧
    ActionHash (fun l => l) dummyAction (some vaultFixture) 5 none =
      .ok (encVal dummyAction ++ be64 (toU64 5) ++ (0x01 :: vaultFixtureBytes) ++
           expiresSection none) ∧
    vaultFixtureBytes.length = 20 :=
  ⟨by decide, by decide,
   (actionHash_byte_layout (fun l => l) dummyAction 5 none).2.1 vaultFixture
     vaultFixtureBytes (by decide),
   (actionHash_byte_layout (fun l => l) dummyAction 5 none).2.2 vaultFixture
     vaultFixtureBytes (by decide) (by decide)⟩

/-- C2: the dummy action (`num` produced by `FloatToInt(1000, 8)`,
encoded as an unsigned 64-bit integer, key `type` before key `num`)
canonically encodes to exactly the fixture bytes, and its `ActionHash`
with no vault, nonce 0 and no expiry is the Keccak-256 of those bytes
followed by eight zero nonce bytes and one zero vault-marker byte. -/
theorem dummyAction_encoding_fixture :
    FloatToInt 1000 8 = .ok 100000000000 ∧
    encVal dummyAction = actionFixtureBytes ∧
    ∀ keccak : List Nat → List Nat,
      ActionHash keccak dummyAction none 0 none =
        .ok (keccak (actionFixtureBytes ++ List.replicate 8 0 ++ [0x00])) := by
  refine ⟨?_, encVal_dummyAction, ?_⟩
  · simp only [FloatToInt, round_eq]
    norm_num
  · intro keccak
    have h : ActionHash keccak dummyAction none 0 none =
        .ok (keccak (encVal dummyAction ++ be64 (toU64 0) ++ [0x00])) := rfl
    have hnonce : be64 (toU64 0) = List.replicate 8 0 := by decide
    rw [h, encVal_dummyAction, hnonce]

/-- C6: `ActionHash` is deterministic — two invocations on the same
inputs give the same digest, and the digest depends on the action only
through its canonical encoding (so, with key order fixed by the ordered
representation, no map-iteration nondeterminism and no hidden randomness
can affect the result). -/
theorem actionHash_deterministic :
    ∀ (keccak : List Nat → List Nat) (a₁ a₂ : Val) (v : Option String) (n : Int)
      (e : Option Int),
      ActionHash keccak a₁ v n e = ActionHash keccak a₁ v n e ∧
      (encVal a₁ = encVal a₂ →
        ActionHash keccak a₁ v n e = ActionHash keccak a₂ v n e) := by
  intro keccak a₁ a₂ v n e
  refine ⟨rfl, fun h => ?_⟩
  unfold ActionHash
  rw [h]

/-- C6 witness: determinism at the dummy action. -/
theorem actionHash_deterministic_witness :
    ActionHash (fun l => l) dummyAction none 0 none =
      ActionHash (fun l => l) dummyAction none 0 none :=
  (actionHash_deterministic (fun l => l) dummyAction dummyAction none 0 none).2 rfl

/-! ### Hex formatting of signature scalars (claim C3) -/

theorem hexChar_ne_zero (d : Nat) (hd : d ≠ 0) : hexChar d ≠ '0' := by
  rcases Nat.lt_or_ge d 15 with h | h
  · interval_cases d <;> simp_all <;> decide
  · obtain ⟨k, rfl⟩ : ∃ k, d = k + 15 := ⟨d - 15, by omega⟩
    show ('f' : Char) ≠ '0'
    decide

theorem hexChar_eq_zero_iff (d : Nat) : hexChar d = '0' ↔ d = 0 := by
  constructor
  · intro h
    by_contra hd
    exact hexChar_ne_zero d hd h
  · intro h
    subst h
    rfl

theorem bytes2hexChars_cons (v : Nat) (b : List Nat) :
    bytes2hexChars (v :: b) = hexChar (v / 16) :: hexChar (v % 16) :: bytes2hexChars b := by
  simp [bytes2hexChars]

theorem nibbles_cons (v : Nat) (b : List Nat) :
    nibbles (v :: b) = v / 16 :: v % 16 :: nibbles b := by
  simp [nibbles]

theorem bytes2hexChars_eq_map (b : List Nat) :
    bytes2hexChars b = (nibbles b).map hexChar := by
  induction b with
  | nil => rfl
  | cons v b ih => rw [bytes2hexChars_cons, nibbles_cons, List.map_cons, List.map_cons, ih]

theorem nibbles_lt (b : List Nat) (hb : ∀ v ∈ b, v < 256) :
    ∀ d ∈ nibbles b, d < 16 := by
  induction b with
  | nil => simp [nibbles]
  | cons v b ih =>
    intro d hd
    have hv := hb v (by simp)
    simp only [nibbles_cons, List.mem_cons] at hd
    rcases hd with rfl | rfl | h
    · omega
    · omega
    · exact ih (fun x hx => hb x (by simp [hx])) d h

theorem val16_foldl_acc (l : List Nat) :
    ∀ a : Nat, l.foldl (fun a d => a * 16 + d) a = a * 16 ^ l.length + val16 l := by
  induction l with
  | nil => intro a; simp [val16]
  | cons d t ih =>
    intro a
    have hv : val16 (d :: t) = d * 16 ^ t.length + val16 t := by
      simp only [val16, List.foldl_cons]
      have h0 : 0 * 16 + d = d := by omega
      rw [h0, ih d]
      rfl
    simp only [List.foldl_cons, List.length_cons]
    rw [ih (a * 16 + d), hv]
    ring

theorem val16_cons (d : Nat) (t : List Nat) :
    val16 (d :: t) = d * 16 ^ t.length + val16 t := by
  simp only [val16, List.foldl_cons]
  have h0 : 0 * 16 + d = d := by omega
  rw [h0, val16_foldl_acc t d]
  rfl

theorem val16_pos (d : Nat) (t : List Nat) (hd : d ≠ 0) : 1 ≤ val16 (d :: t) := by
  rw [val16_cons]
  have h16 : 0 < 16 ^ t.length := pow_pos (by norm_num) _
  have h1 : 1 ≤ d := by omega
  nlinarith [Nat.zero_le (val16 t)]

theorem val16_nibbles (b : List Nat) (hb : ∀ v ∈ b, v < 256) :
    val16 (nibbles b) = beNat b := by
  suffices h : ∀ a : Nat, (nibbles b).foldl (fun a d => a * 16 + d) a =
      b.foldl (fun a x => a * 256 + x) a by
    exact h 0
  induction b with
  | nil => intro a; simp [nibbles]
  | cons v b ih =>
    intro a
    rw [nibbles_cons]
    simp only [List.foldl_cons]
    rw [ih (fun x hx => hb x (by simp [hx]))]
    congr 1
    omega

theorem minHexDigits_of_lt (n : Nat) (h : n < 16) : minHexDigits n = [n] := by
  rw [minHexDigits]
  simp [h]

theorem minHexDigits_of_ge (n : Nat) (h : 16 ≤ n) :
    minHexDigits n = minHexDigits (n / 16) ++ [n % 16] := by
  rw [minHexDigits]
  simp [Nat.not_lt.mpr h]

theorem minHexDigits_val16 (d : Nat) (t : List Nat) :
    (∀ x ∈ d :: t, x < 16) → d ≠ 0 → minHexDigits (val16 (d :: t)) = d :: t := by
  induction t using List.reverseRecOn with
  | nil =>
    intro hlt hd
    have : val16 [d] = d := by simp [val16]
    rw [this, minHexDigits_of_lt d (hlt d (by simp))]
  | append_singleton t e ih =>
    intro hlt hd
    have hcons : d :: (t ++ [e]) = (d :: t) ++ [e] := by simp
    rw [hcons]
    have hval : val16 ((d :: t) ++ [e]) = val16 (d :: t) * 16 + e := by
      simp only [val16, List.foldl_append, List.foldl_cons, List.foldl_nil]
    have he : e < 16 := hlt e (by simp)
    have hpos := val16_pos d t hd
    have hge : 16 ≤ val16 (d :: t) * 16 + e := by omega
    rw [hval, minHexDigits_of_ge _ hge]
    have hdiv : (val16 (d :: t) * 16 + e) / 16 = val16 (d :: t) := by omega
    have hmod : (val16 (d :: t) * 16 + e) % 16 = e := by omega
    have hsub : ∀ x ∈ d :: t, x < 16 := by
      intro x hx
      apply hlt
      simp only [List.mem_cons] at hx ⊢
      rcases hx with rfl | hx
      · exact Or.inl rfl
      · exact Or.inr (List.mem_append.mpr (Or.inl hx))
    rw [hdiv, hmod, ih hsub hd]

theorem trimDigits_eq_minHexDigits :
    ∀ ds : List Nat, (∀ d ∈ ds, d < 16) → ds ≠ [] →
      trimDigits ds = minHexDigits (val16 ds)
  | [d], hlt, _ => by
    have : val16 [d] = d := by simp [val16]
    rw [this, minHexDigits_of_lt d (hlt d (by simp))]
    rfl
  | d :: d' :: ds, hlt, _ => by
    by_cases hd : d = 0
    · subst hd
      have h1 : trimDigits (0 :: d' :: ds) = trimDigits (d' :: ds) := by
        simp [trimDigits]
      have h2 : val16 (0 :: d' :: ds) = val16 (d' :: ds) := by
        simp [val16]
      rw [h1, h2]
      exact trimDigits_eq_minHexDigits (d' :: ds)
        (fun x hx => hlt x (by simp at hx ⊢; tauto)) (by simp)
    · have h1 : trimDigits (d :: d' :: ds) = d :: d' :: ds := by
        simp [trimDigits, hd]
      rw [h1, minHexDigits_val16 d (d' :: ds) hlt hd]

theorem trimHexZeros_map_hexChar :
    ∀ ds : List Nat, trimHexZeros (ds.map hexChar) = (trimDigits ds).map hexChar
  | [] => rfl
  | [d] => rfl
  | d :: d' :: ds => by
    simp only [List.map_cons, trimHexZeros, trimDigits]
    by_cases hd : d = 0
    · subst hd
      simp only [hexChar, if_pos rfl, reduceIte]
      exact trimHexZeros_map_hexChar (d' :: ds)
    · have : hexChar d ≠ '0' := fun h => hd ((hexChar_eq_zero_iff d).mp h)
      simp [this, hd]

theorem formatHex_eq_natToHex (b : List Nat) (hne : b ≠ [])
    (hb : ∀ v ∈ b, v < 256) : formatHex b = "0x" ++ natToHex (beNat b) := by
  have hnib : nibbles b ≠ [] := by
    cases b with
    | nil => exact absurd rfl hne
    | cons v b => rw [nibbles_cons]; simp
  rw [formatHex, bytes2hexChars_eq_map, trimHexZeros_map_hexChar,
      trimDigits_eq_minHexDigits (nibbles b) (nibbles_lt b hb) hnib,
      val16_nibbles b hb, natToHex]

/-- C3: every signature `signTypedData` returns has `V` equal to the raw
recovery id (0 or 1) plus 27 — so 27 or 28, never the raw form — and
renders `R` (signature bytes 0-31) and `S` (bytes 32-63) as `"0x"` plus
the arbitrary-precision-integer hex formatting of the scalar: leading
zero nibbles stripped, at least one hex digit retained, never an
even-padded fixed-width string. -/
theorem signature_format :
    ∀ (keccak : List Nat → List Nat)
      (hashStruct : TypedData → String → List (String × Val) → Except String (List Nat))
      (ecSign : List Nat → Except String (List Nat)) (td : TypedData)
      (dsep mhash sig : List Nat),
      hashStruct td "EIP712Domain" (domainMap td.domain) = .ok dsep →
      hashStruct td td.primaryType td.message = .ok mhash →
      ecSign (keccak (0x19 :: 0x01 :: (dsep ++ mhash))) = .ok sig →
      sig.length = 65 → (∀ x ∈ sig, x < 256) → sig.getD 64 0 < 2 →
      signTypedData keccak hashStruct ecSign td =
        .ok ⟨"0x" ++ natToHex (beNat (sig.take 32)),
             "0x" ++ natToHex (beNat ((sig.drop 32).take 32)),
             sig.getD 64 0 + 27⟩ ∧
      (sig.getD 64 0 + 27 = 27 ∨ sig.getD 64 0 + 27 = 28) := by
  intro keccak hashStruct ecSign td dsep mhash sig h1 h2 h3 hlen hb hv
  refine ⟨?_, by omega⟩
  have hrne : sig.take 32 ≠ [] := by
    have : (sig.take 32).length = 32 := by
      rw [List.length_take]
      omega
    intro hcon
    rw [hcon] at this
    simp at this
  have hsne : (sig.drop 32).take 32 ≠ [] := by
    have : ((sig.drop 32).take 32).length = 32 := by
      rw [List.length_take, List.length_drop]
      omega
    intro hcon
    rw [hcon] at this
    simp at this
  have hrb : ∀ x ∈ sig.take 32, x < 256 :=
    fun x hx => hb x (List.take_subset _ _ hx)
  have hsb : ∀ x ∈ (sig.drop 32).take 32, x < 256 :=
    fun x hx => hb x (List.drop_subset _ _ (List.take_subset _ _ hx))
  simp only [signTypedData, h1, h2, h3]
  rw [formatHex_eq_natToHex _ hrne hrb, formatHex_eq_natToHex _ hsne hsb,
      if_pos (by omega : sig.getD 64 0 < 27)]

/-- C3 witness: a 65-byte signature of 64 zero bytes and recovery id 1
is formatted with `R = S = "0x0"` and `V = 28`. -/
theorem signature_format_witness :
    (List.replicate 64 0 ++ [1]).length = 65 ∧
    ((List.replicate 64 0 ++ [1]).getD 64 0 < 2) ∧
    signTypedData (fun _ => []) (fun _ _ _ => .ok []) (fun _ => .ok (List.replicate 64 0 ++ [1]))
        (L1Payload (ConstructPhantomAgent [] true)) =
      .ok ⟨"0x" ++ natToHex (beNat ((List.replicate 64 0 ++ [1]).take 32)),
           "0x" ++ natToHex (beNat (((List.replicate 64 0 ++ [1]).drop 32).take 32)),
           (List.replicate 64 0 ++ [1]).getD 64 0 + 27⟩ ∧
    ((List.replicate 64 0 ++ [1]).getD 64 0 + 27 = 27 ∨
     (List.replicate 64 0 ++ [1]).getD 64 0 + 27 = 28) := by
  refine ⟨by decide, by decide, ?_, ?_⟩
  · exact (signature_format (fun _ => []) (fun _ _ _ => .ok [])
      (fun _ => .ok (List.replicate 64 0 ++ [1])) (L1Payload (ConstructPhantomAgent [] true))
      [] [] (List.replicate 64 0 ++ [1]) rfl rfl rfl (by decide) (by decide) (by decide)).1
  · exact (signature_format (fun _ => []) (fun _ _ _ => .ok [])
      (fun _ => .ok (List.replicate 64 0 ++ [1])) (L1Payload (ConstructPhantomAgent [] true))
      [] [] (List.replicate 64 0 ++ [1]) rfl rfl rfl (by decide) (by decide) (by decide)).2

/-! ### Message construction of user-signed payloads (claim C4) -/

theorem map_fst_mapSet (m : List (String × Val)) (k : String) (v : Val) :
    (mapSet m k v).map Prod.fst = m.map Prod.fst ∨
    (mapSet m k v).map Prod.fst = m.map Prod.fst ++ [k] := by
  unfold mapSet
  by_cases h : m.any (fun kv => kv.1 = k)
  · left
    rw [if_pos h, List.map_map]
    apply List.map_congr_left
    intro kv _
    by_cases hk : kv.1 = k
    · simp [hk]
    · simp [hk]
  · right
    rw [if_neg h]
    simp

theorem keys_mapSet (m : List (String × Val)) (k : String) (v : Val) (q : String) :
    q ∈ (mapSet m k v).map Prod.fst ↔ q ∈ m.map Prod.fst ∨ q = k := by
  unfold mapSet
  by_cases h : m.any (fun kv => kv.1 = k)
  · rw [if_pos h]
    have hmem : k ∈ m.map Prod.fst := by
      simp only [List.any_eq_true, decide_eq_true_eq] at h
      obtain ⟨kv, hkv, hk⟩ := h
      exact List.mem_map.mpr ⟨kv, hkv, hk⟩
    have hkeys : (m.map (fun kv => if kv.1 = k then (k, v) else kv)).map Prod.fst =
        m.map Prod.fst := by
      rw [List.map_map]
      apply List.map_congr_left
      intro kv _
      by_cases hk : kv.1 = k
      · simp [hk]
      · simp [hk]
    rw [hkeys]
    constructor
    · exact Or.inl
    · rintro (hq | rfl)
      · exact hq
      · exact hmem
  · rw [if_neg h]
    simp

theorem lookup_eq_none_of_not_any (m : List (String × Val)) (k : String)
    (h : m.any (fun kv => kv.1 = k) = false) : List.lookup k m = none := by
  induction m with
  | nil => rfl
  | cons a t ih =>
    obtain ⟨a1, a2⟩ := a
    simp only [List.any_cons, Bool.or_eq_false_iff, decide_eq_false_iff_not] at h
    have hbeq : (k == a1) = false := by
      simp only [beq_eq_false_iff_ne, ne_eq]
      exact fun hk => h.1 hk.symm
    simp only [List.lookup, hbeq]
    exact ih h.2

theorem any_eq_lookup_isSome (m : List (String × Val)) (k : String) :
    m.any (fun kv => kv.1 = k) = (List.lookup k m).isSome := by
  induction m with
  | nil => rfl
  | cons a t ih =>
    obtain ⟨a1, a2⟩ := a
    by_cases h : a1 = k
    · subst h
      simp [List.lookup]
    · have hbeq : (k == a1) = false := by
        simp only [beq_eq_false_iff_ne, ne_eq]
        exact fun hk => h hk.symm
      simp only [List.any_cons, List.lookup, hbeq, decide_eq_true_eq]
      simpa [h] using ih

theorem lookup_append_left_none (m m' : List (String × Val)) (k : String)
    (h : List.lookup k m = none) :
    List.lookup k (m ++ m') = List.lookup k m' := by
  induction m with
  | nil => rfl
  | cons a t ih =>
    obtain ⟨a1, a2⟩ := a
    simp only [List.lookup] at h ⊢
    cases hbeq : (k == a1) with
    | true => rw [hbeq] at h; cases h
    | false =>
      rw [hbeq] at h
      simp only [List.cons_append, List.lookup, hbeq]
      exact ih h

theorem lookup_overwrite_self (m : List (String × Val)) (k : String) (v : Val) :
    List.lookup k (m.map (fun kv => if kv.1 = k then (k, v) else kv)) =
      (List.lookup k m).map (fun _ => v) := by
  induction m with
  | nil => rfl
  | cons a t ih =>
    obtain ⟨a1, a2⟩ := a
    simp only [List.map_cons]
    by_cases h : a1 = k
    · subst h
      have hif : (if ((a1, a2) : String × Val).1 = a1 then (a1, v) else (a1, a2)) =
          (a1, v) := by simp
      rw [hif]
      simp [List.lookup]
    · have hif : (if ((a1, a2) : String × Val).1 = k then (k, v) else (a1, a2)) =
          (a1, a2) := by simp [h]
      rw [hif]
      have hbeq : (k == a1) = false := by
        simp only [beq_eq_false_iff_ne, ne_eq]
        exact fun hk => h hk.symm
      simp only [List.lookup, hbeq]
      exact ih

theorem lookup_overwrite_ne (m : List (String × Val)) (k q : String) (v : Val)
    (hq : q ≠ k) :
    List.lookup q (m.map (fun kv => if kv.1 = k then (k, v) else kv)) =
      List.lookup q m := by
  induction m with
  | nil => rfl
  | cons a t ih =>
    obtain ⟨a1, a2⟩ := a
    simp only [List.map_cons]
    by_cases h : a1 = k
    · subst h
      have hif : (if ((a1, a2) : String × Val).1 = a1 then (a1, v) else (a1, a2)) =
          (a1, v) := by simp
      rw [hif]
      have hbeq : (q == a1) = false := by
        simp only [beq_eq_false_iff_ne, ne_eq]
        exact hq
      simp only [List.lookup, hbeq]
      exact ih
    · have hif : (if ((a1, a2) : String × Val).1 = k then (k, v) else (a1, a2)) =
          (a1, a2) := by simp [h]
      rw [hif]
      simp only [List.lookup]
      cases hbeq : (q == a1) with
      | true => rfl
      | false => exact ih

theorem lookup_mapSet_self (m : List (String × Val)) (k : String) (v : Val) :
    List.lookup k (mapSet m k v) = some v := by
  unfold mapSet
  by_cases h : m.any (fun kv => kv.1 = k)
  · rw [if_pos h, lookup_overwrite_self]
    rw [any_eq_lookup_isSome] at h
    cases hl : List.lookup k m with
    | none => rw [hl] at h; cases h
    | some w => rfl
  · rw [if_neg h, lookup_append_left_none]
    · simp [List.lookup]
    · exact lookup_eq_none_of_not_any m k (Bool.eq_false_iff.mpr h)

theorem lookup_mapSet_ne (m : List (String × Val)) (k q : String) (v : Val)
    (hq : q ≠ k) : List.lookup q (mapSet m k v) = List.lookup q m := by
  unfold mapSet
  by_cases h : m.any (fun kv => kv.1 = k)
  · rw [if_pos h, lookup_overwrite_ne m k q v hq]
  · rw [if_neg h]
    induction m with
    | nil =>
      have hbeq : (q == k) = false := by
        simp only [beq_eq_false_iff_ne, ne_eq]
        exact hq
      simp [List.lookup, hbeq]
    | cons a t ih =>
      obtain ⟨a1, a2⟩ := a
      simp only [List.cons_append, List.lookup]
      cases hbeq : (q == a1) with
      | true => rfl
      | false =>
        apply ih
        intro hc
        apply h
        simp only [List.any_cons, Bool.or_eq_true]
        exact Or.inr hc

theorem userSignedPayload_keys_foldl (action : List (String × Val)) :
    ∀ (st : List TDType) (acc : List (String × Val)) (k : String),
      k ∈ ((st.foldl (fun m ft =>
          match List.lookup ft.name action with
          | some v => mapSet m ft.name (widenIfInt ft.type v)
          | none => m) acc).map Prod.fst) ↔
        k ∈ acc.map Prod.fst ∨
        (k ∈ st.map TDType.name ∧ (List.lookup k action).isSome) := by
  intro st
  induction st with
  | nil => simp
  | cons ft rest ih =>
    intro acc k
    simp only [List.foldl_cons, List.map_cons, List.mem_cons]
    cases hft : List.lookup ft.name action with
    | some v =>
      simp only [hft]
      rw [ih]
      rw [keys_mapSet]
      constructor
      · rintro ((hacc | rfl) | hrest)
        · exact Or.inl hacc
        · exact Or.inr ⟨Or.inl rfl, by simp [hft]⟩
        · exact Or.inr ⟨Or.inr hrest.1, hrest.2⟩
      · rintro (hacc | ⟨(rfl | hname), hsome⟩)
        · exact Or.inl (Or.inl hacc)
        · exact Or.inl (Or.inr rfl)
        · exact Or.inr ⟨hname, hsome⟩
    | none =>
      simp only [hft]
      rw [ih]
      constructor
      · rintro (hacc | hrest)
        · exact Or.inl hacc
        · exact Or.inr ⟨Or.inr hrest.1, hrest.2⟩
      · rintro (hacc | ⟨(rfl | hname), hsome⟩)
        · exact Or.inl hacc
        · rw [hft] at hsome
          simp at hsome
        · exact Or.inr ⟨hname, hsome⟩

/-- C4: the message built by `UserSignedPayload` contains exactly the
fields that are both declared in the sign-type table and present in the
action; a field not listed in the table (such as `signatureChainId`)
never appears in the message, and a declared-but-missing field is
silently skipped (the payload is still built, and no error exists in the
return type). -/
theorem userSignedPayload_message_fields :
    ∀ (action : List (String × Val)) (st : List TDType) (pt : String),
      (∀ k, k ∈ ((UserSignedPayload action st pt).message.map Prod.fst) ↔
        (k ∈ st.map TDType.name ∧ (List.lookup k action).isSome)) ∧
      (∀ k, k ∉ st.map TDType.name →
        k ∉ ((UserSignedPayload action st pt).message.map Prod.fst)) ∧
      (∀ ft ∈ st, List.lookup ft.name action = none →
        ft.name ∉ ((UserSignedPayload action st pt).message.map Prod.fst)) := by
  intro action st pt
  have hmain : ∀ k, k ∈ ((UserSignedPayload action st pt).message.map Prod.fst) ↔
      (k ∈ st.map TDType.name ∧ (List.lookup k action).isSome) := by
    intro k
    have h := userSignedPayload_keys_foldl action st [] k
    simpa [UserSignedPayload] using h
  refine ⟨hmain, ?_, ?_⟩
  · intro k hk hmem
    exact hk ((hmain k).mp hmem).1
  · intro ft _ hnone hmem
    have := ((hmain ft.name).mp hmem).2
    rw [hnone] at this
    simp at this

/-- C4 witness: with the `UsdSend` table, a field outside the table
(`signatureChainId`) and a declared-but-missing field
(`hyperliquidChain`) are both absent from the message, while a
declared-and-present field (`destination`) is in it. -/
theorem userSignedPayload_message_fields_witness :
    "signatureChainId" ∉ ((UserSignedPayload
        [("destination", .str "0xd"), ("amount", .str "1"),
         ("signatureChainId", .str "0x66eee")]
        USDSendSignTypes "HyperliquidTransaction:UsdSend").message.map Prod.fst) ∧
    "hyperliquidChain" ∉ ((UserSignedPayload
        [("destination", .str "0xd"), ("amount", .str "1"),
         ("signatureChainId", .str "0x66eee")]
        USDSendSignTypes "HyperliquidTransaction:UsdSend").message.map Prod.fst) ∧
    "destination" ∈ ((UserSignedPayload
        [("destination", .str "0xd"), ("amount", .str "1"),
         ("signatureChainId", .str "0x66eee")]
        USDSendSignTypes "HyperliquidTransaction:UsdSend").message.map Prod.fst) := by
  refine ⟨?_, ?_, ?_⟩
  · exact (userSignedPayload_message_fields
      [("destination", .str "0xd"), ("amount", .str "1"),
       ("signatureChainId", .str "0x66eee")]
      USDSendSignTypes "HyperliquidTransaction:UsdSend").2.1 "signatureChainId" (by decide)
  · exact (userSignedPayload_message_fields
      [("destination", .str "0xd"), ("amount", .str "1"),
       ("signatureChainId", .str "0x66eee")]
      USDSendSignTypes "HyperliquidTransaction:UsdSend").2.2
      ⟨"hyperliquidChain", "string"⟩ (by decide) rfl
  · exact ((userSignedPayload_message_fields
      [("destination", .str "0xd"), ("amount", .str "1"),
       ("signatureChainId", .str "0x66eee")]
      USDSendSignTypes "HyperliquidTransaction:UsdSend").1 "destination").mpr
      ⟨by decide, by decide⟩

/-! ### Signing domains (claim C5), caller-visible effects (claim C9),
and the multi-sig path (claim C10) -/

/-- C5: `SignL1Action` always signs under the EIP-712 domain
`{Exchange, "1", 1337, zero address}` with primary type `Agent` whose
declared fields are `source: string` then `connectionId: bytes32`, and
`SignUserSignedAction` always signs under
`{HyperliquidSignTransaction, "1", 421614, zero address}` with the
caller-supplied primary type. -/
theorem signing_domains :
    (∀ (keccak : List Nat → List Nat)
       (hashStruct : TypedData → String → List (String × Val) → Except String (List Nat))
       (ecSign : List Nat → Except String (List Nat)) (a : Val) (v : Option String)
       (n : Int) (e : Option Int) (mn : Bool) (h : List Nat),
      ActionHash keccak a v n e = .ok h →
      ∃ td, SignL1Action keccak hashStruct ecSign a v n e mn =
          signTypedData keccak hashStruct ecSign td ∧
        td.domain = ⟨"Exchange", "1", 1337, "0x0000000000000000000000000000000000000000"⟩ ∧
        td.primaryType = "Agent" ∧
        List.lookup "Agent" td.types =
          some [⟨"source", "string"⟩, ⟨"connectionId", "bytes32"⟩]) ∧
    (∀ (keccak : List Nat → List Nat)
       (hashStruct : TypedData → String → List (String × Val) → Except String (List Nat))
       (ecSign : List Nat → Except String (List Nat)) (action : List (String × Val))
       (st : List TDType) (pt : String) (mn : Bool),
      ∃ td, (SignUserSignedAction keccak hashStruct ecSign action st pt mn).1 =
          signTypedData keccak hashStruct ecSign td ∧
        td.domain = ⟨"HyperliquidSignTransaction", "1", 421614,
                     "0x0000000000000000000000000000000000000000"⟩ ∧
        td.primaryType = pt) := by
  constructor
  · intro keccak hashStruct ecSign a v n e mn h hhash
    refine ⟨L1Payload (ConstructPhantomAgent h mn), ?_, rfl, rfl, rfl⟩
    simp only [SignL1Action, hhash]
  · intro keccak hashStruct ecSign action st pt mn
    refine ⟨UserSignedPayload
      (mapSet (mapSet action "signatureChainId" (.str "0x66eee")) "hyperliquidChain"
        (.str (if mn then "Mainnet" else "Testnet"))) st pt, rfl, ?_, rfl⟩
    simp only [UserSignedPayload]
    rw [lookup_mapSet_ne _ _ _ _ (by decide), lookup_mapSet_self]
    decide

/-- C5 witness: concrete instantiation of both halves. -/
theorem signing_domains_witness :
    (ActionHash (fun l => l) dummyAction none 0 none =
      .ok (encVal dummyAction ++ be64 (toU64 0) ++ [0x00])) ∧
    (∃ td, SignL1Action (fun l => l) (fun _ _ _ => .ok []) (fun _ => .ok []) dummyAction
        none 0 none true = signTypedData (fun l => l) (fun _ _ _ => .ok [])
          (fun _ => .ok []) td ∧
      td.domain = ⟨"Exchange", "1", 1337, "0x0000000000000000000000000000000000000000"⟩ ∧
      td.primaryType = "Agent" ∧
      List.lookup "Agent" td.types =
        some [⟨"source", "string"⟩, ⟨"connectionId", "bytes32"⟩]) ∧
    (∃ td, (SignUserSignedAction (fun l => l) (fun _ _ _ => .ok []) (fun _ => .ok [])
        [("destination", .str "0xd")] USDSendSignTypes
        "HyperliquidTransaction:UsdSend" false).1 =
        signTypedData (fun l => l) (fun _ _ _ => .ok []) (fun _ => .ok []) td ∧
      td.domain = ⟨"HyperliquidSignTransaction", "1", 421614,
                   "0x0000000000000000000000000000000000000000"⟩ ∧
      td.primaryType = "HyperliquidTransaction:UsdSend") :=
  ⟨rfl,
   signing_domains.1 (fun l => l) (fun _ _ _ => .ok []) (fun _ => .ok []) dummyAction
     none 0 none true (encVal dummyAction ++ be64 (toU64 0) ++ [0x00]) rfl,
   signing_domains.2 (fun l => l) (fun _ _ _ => .ok []) (fun _ => .ok [])
     [("destination", .str "0xd")] USDSendSignTypes "HyperliquidTransaction:UsdSend" false⟩

/-- C9 counterexample: `SignUserSignedAction` does modify the
caller-supplied action map — calling it on an empty action leaves the
key `hyperliquidChain` (and `signatureChainId`) in the caller's map, so
the signing functions are not free of caller-visible effects as claimed. -/
theorem signUserSignedAction_mutates_caller_map :
    List.lookup "hyperliquidChain"
      (SignUserSignedAction (fun _ => []) (fun _ _ _ => .ok []) (fun _ => .ok [])
        [] USDSendSignTypes "HyperliquidTransaction:UsdSend" true).2 =
      some (.str "Mainnet") ∧
    List.lookup "hyperliquidChain" ([] : List (String × Val)) = none :=
  ⟨rfl, rfl⟩

/-- C9 (amended): the caller-visible effect of `SignUserSignedAction` is
exactly the two writes `signatureChainId := "0x66eee"` and
`hyperliquidChain := "Mainnet"/"Testnet"` into the caller's action map;
every other key is left unchanged (and the embedded `SignL1Action` and
`SignMultiSigAction` only read their inputs). -/
theorem signUserSignedAction_action_effect :
    ∀ (keccak : List Nat → List Nat)
      (hashStruct : TypedData → String → List (String × Val) → Except String (List Nat))
      (ecSign : List Nat → Except String (List Nat)) (action : List (String × Val))
      (st : List TDType) (pt : String) (mn : Bool),
      (SignUserSignedAction keccak hashStruct ecSign action st pt mn).2 =
        mapSet (mapSet action "signatureChainId" (.str "0x66eee")) "hyperliquidChain"
          (.str (if mn then "Mainnet" else "Testnet")) ∧
      ∀ q, q ≠ "signatureChainId" → q ≠ "hyperliquidChain" →
        List.lookup q (SignUserSignedAction keccak hashStruct ecSign action st pt mn).2 =
          List.lookup q action := by
  intro keccak hashStruct ecSign action st pt mn
  refine ⟨rfl, fun q h1 h2 => ?_⟩
  show List.lookup q (mapSet (mapSet action "signatureChainId" (.str "0x66eee"))
    "hyperliquidChain" (.str (if mn then "Mainnet" else "Testnet"))) = List.lookup q action
  rw [lookup_mapSet_ne _ _ _ _ h2, lookup_mapSet_ne _ _ _ _ h1]

/-- C9 witness: a key different from the two written ones is unchanged. -/
theorem signUserSignedAction_action_effect_witness :
    List.lookup "destination"
      (SignUserSignedAction (fun _ => []) (fun _ _ _ => .ok []) (fun _ => .ok [])
        [("destination", .str "0xd")] USDSendSignTypes
        "HyperliquidTransaction:UsdSend" true).2 =
      List.lookup "destination" [("destination", Val.str "0xd")] :=
  (signUserSignedAction_action_effect (fun _ => []) (fun _ _ _ => .ok [])
    (fun _ => .ok []) [("destination", .str "0xd")] USDSendSignTypes
    "HyperliquidTransaction:UsdSend" true).2 "destination" (by decide) (by decide)

/-- C10: `SignMultiSigAction` hashes a copy of the action with the
`type` key removed (with the given vault address, nonce and expiry),
widens the digest to a fixed-size 32-byte value, and signs the envelope
`{multiSigActionHash, nonce}` through the user-signed path with
`MultiSigEnvelopeSignTypes` and primary type
`HyperliquidTransaction:SendMultiSig`. -/
theorem signMultiSigAction_decomposition :
    (∀ b : List Nat, (bytesToHash32 b).length = 32) ∧
    ∀ (keccak : List Nat → List Nat)
      (hashStruct : TypedData → String → List (String × Val) → Except String (List Nat))
      (ecSign : List Nat → Except String (List Nat)) (action : List (String × Val))
      (mn : Bool) (v : Option String) (n : Int) (e : Option Int) (h : List Nat),
      ActionHash keccak (.map (action.filter (fun kv => kv.1 ≠ "type"))) v n e = .ok h →
      SignMultiSigAction keccak hashStruct ecSign action mn v n e =
        (SignUserSignedAction keccak hashStruct ecSign
          [("multiSigActionHash", .bytes (bytesToHash32 h)), ("nonce", .int n)]
          MultiSigEnvelopeSignTypes "HyperliquidTransaction:SendMultiSig" mn).1 := by
  constructor
  · intro b
    simp only [bytesToHash32, List.length_append, List.length_replicate, List.length_drop]
    omega
  · intro keccak hashStruct ecSign action mn v n e h hhash
    simp only [SignMultiSigAction, hhash]

/-- C10 witness: concrete multi-sig action. -/
theorem signMultiSigAction_decomposition_witness :
    (bytesToHash32 []).length = 32 ∧
    ActionHash (fun l => l)
        (.map (([("type", Val.str "multiSig"), ("payload", Val.bool true)]).filter
          (fun kv => kv.1 ≠ "type"))) none 7 none =
      .ok (encVal (.map (([("type", Val.str "multiSig"), ("payload", Val.bool true)]).filter
          (fun kv => kv.1 ≠ "type"))) ++ be64 (toU64 7) ++ [0x00]) ∧
    SignMultiSigAction (fun l => l) (fun _ _ _ => .ok []) (fun _ => .ok [])
        [("type", Val.str "multiSig"), ("payload", Val.bool true)] true none 7 none =
      (SignUserSignedAction (fun l => l) (fun _ _ _ => .ok []) (fun _ => .ok [])
        [("multiSigActionHash", .bytes (bytesToHash32
          (encVal (.map (([("type", Val.str "multiSig"), ("payload", Val.bool true)]).filter
            (fun kv => kv.1 ≠ "type"))) ++ be64 (toU64 7) ++ [0x00]))), ("nonce", .int 7)]
        MultiSigEnvelopeSignTypes "HyperliquidTransaction:SendMultiSig" true).1 :=
  ⟨signMultiSigAction_decomposition.1 [], rfl,
   signMultiSigAction_decomposition.2 (fun l => l) (fun _ _ _ => .ok []) (fun _ => .ok [])
     [("type", Val.str "multiSig"), ("payload", Val.bool true)] true none 7 none _ rfl⟩

/-! ### Wire-float conversion (claim C7) and address validation
(claim C8) -/

/-- C7 counterexample: `0.1 + 1e-13` needs 13 decimal places to
represent exactly (scaling by `10^8` leaves a non-integer), yet
`FloatToWire` silently returns `"0.1"` instead of a precision error,
because the rounding error `1e-13` is below the `1e-12` guard. -/
theorem floatToWire_accepts_excess_precision :
    FloatToWire (1 / 10 + 1 / 10 ^ 13) = .ok "0.1" ∧
    ((1 / 10 + 1 / 10 ^ 13 : ℚ) * 10 ^ 8).den ≠ 1 := by
  constructor
  · simp only [FloatToWire, sprintf8f, round_eq]
    norm_num
    rw [if_neg (by
      rw [abs_of_pos (by norm_num : (0:ℚ) < 1 / 10000000000000)]
      norm_num)]
    decide
  · norm_num [Rat.den_eq_one_iff]

/-- C7 (amended): `FloatToWire` rounds to 8 decimal places and returns a
precision error exactly when the rounding changed the value by at least
`1e-12` (a value needing more than 8 decimal places but within `1e-12`
of its rounding is accepted silently); otherwise it normalizes `-0` to
`0` and strips trailing zeros and a trailing bare decimal point, with
`FloatToWire(1670.1) = "1670.1"` and `FloatToWire(100) = "100"`. -/
theorem floatToWire_spec :
    (∀ x : ℚ, (∃ e, FloatToWire x = .error e) ↔
        |((round (x * 10 ^ 8) : ℤ) : ℚ) / 10 ^ 8 - x| ≥ 1 / 10 ^ 12) ∧
    FloatToWire (16701 / 10) = .ok "1670.1" ∧
    FloatToWire 100 = .ok "100" ∧
    (∀ x : ℚ, x < 0 → round (x * 10 ^ 8) = 0 → |x| < 1 / 10 ^ 12 →
      FloatToWire x = .ok "0") := by
  refine ⟨?_, ?_, ?_, ?_⟩
  · intro x
    simp only [FloatToWire]
    by_cases h : |((round (x * 10 ^ 8) : ℤ) : ℚ) / 10 ^ 8 - x| ≥ 1 / 10 ^ 12
    · simp only [if_pos h]
      exact ⟨fun _ => h, fun _ => ⟨"float_to_wire causes rounding", rfl⟩⟩
    · simp only [if_neg h]
      constructor
      · rintro ⟨e, he⟩
        cases he
      · intro hc
        exact absurd hc h
  · simp only [FloatToWire, sprintf8f, round_eq]
    norm_num
    decide
  · simp only [FloatToWire, sprintf8f, round_eq]
    norm_num
    decide
  · intro x hx h0 hsmall
    have hok : ¬ (|((0 : ℤ) : ℚ) / 10 ^ 8 - x| ≥ 1 / 10 ^ 12) := by
      rw [Int.cast_zero, zero_div, zero_sub, abs_neg]
      exact not_le.mpr hsmall
    rw [FloatToWire, sprintf8f, h0, if_neg hok,
        if_pos (Or.inr ⟨rfl, hx⟩ : (0:ℤ) < 0 ∨ ((0:ℤ) = 0 ∧ x < 0))]
    decide

/-- C7 witness: the error arm of the iff at a value whose 8-decimal
rounding moves it by more than `1e-12`, and the `-0` normalization at a
tiny negative value. -/
theorem floatToWire_spec_witness :
    (∃ e, FloatToWire (1 / 10 ^ 9) = .error e) ∧
    FloatToWire (-1 / 10 ^ 13) = .ok "0" := by
  constructor
  · exact (floatToWire_spec.1 (1 / 10 ^ 9)).mpr (by
      rw [show round ((1 / 10 ^ 9 : ℚ) * 10 ^ 8) = 0 from by rw [round_eq]; norm_num]
      push_cast
      rw [zero_div, zero_sub, abs_neg]
      rw [abs_of_pos (by norm_num)]
      norm_num)
  · exact floatToWire_spec.2.2.2 (-1 / 10 ^ 13) (by norm_num)
      (by rw [round_eq]; norm_num)
      (by rw [abs_of_neg (by norm_num)]; norm_num)

theorem decodeHexPairs_error_iff :
    ∀ cs : List Char, (∃ err, decodeHexPairs cs = .error err) ↔ pairsOk cs = false
  | [] => by
    simp only [decodeHexPairs, pairsOk]
    constructor
    · rintro ⟨e, he⟩
      cases he
    · intro h
      cases h
  | [c] => by
    simp only [decodeHexPairs, pairsOk]
    constructor
    · rintro ⟨e, he⟩
      cases he
    · intro h
      cases h
  | c1 :: c2 :: rest => by
    simp only [decodeHexPairs, pairsOk]
    cases h1 : hexDigit? c1 with
    | none =>
      cases h2 : hexDigit? c2 <;> simp
    | some d1 =>
      cases h2 : hexDigit? c2 with
      | none => simp
      | some d2 =>
        simp only [Option.isSome_some, Bool.true_and]
        cases hrec : decodeHexPairs rest with
        | ok bs =>
          constructor
          · rintro ⟨e, he⟩
            cases he
          · intro hfalse
            have := (decodeHexPairs_error_iff rest).mpr hfalse
            obtain ⟨e, he⟩ := this
            rw [he] at hrec
            cases hrec
        | error e =>
          constructor
          · intro _
            exact (decodeHexPairs_error_iff rest).mp ⟨e, hrec⟩
          · intro _
            exact ⟨e, rfl⟩

/-- C8 counterexample: the vault address `"0x1234"` is not 40 hex
characters, yet `ActionHash` succeeds — `AddressToBytes` silently
decodes it to 2 bytes instead of returning an error. -/
theorem actionHash_accepts_short_address :
    validAddr40 "0x1234" = false ∧
    AddressToBytes "0x1234" = .ok [0x12, 0x34] ∧
    ActionHash (fun l => l) (Val.bool true) (some "0x1234") 0 none =
      .ok (encVal (Val.bool true) ++ be64 (toU64 0) ++ [0x01, 0x12, 0x34]) :=
  ⟨by decide, by decide, rfl⟩

/-- C8 (amended): `ActionHash` surfaces an error for a present vault
address exactly when `AddressToBytes` fails, which happens exactly when
some aligned 2-character group of the (0x-stripped) content is not two
hex digits; a wrong-length address is not rejected — the pairs are
decoded as-is into `length/2` bytes and an odd trailing character is
silently dropped. -/
theorem actionHash_vault_error_characterization :
    ∀ s : String,
      ((∃ err, AddressToBytes s = .error err) ↔ pairsOk (addrContent s) = false) ∧
      (∀ b, AddressToBytes s = .ok b → b.length = (addrContent s).length / 2) ∧
      (∀ (keccak : List Nat → List Nat) (a : Val) (n : Int) (e : Option Int),
        (∃ err, ActionHash keccak a (some s) n e = .error err) ↔
          (∃ err, AddressToBytes s = .error err)) := by
  intro s
  refine ⟨by rw [addressToBytes_eq]; exact decodeHexPairs_error_iff _, ?_, ?_⟩
  · intro b hb
    rw [addressToBytes_eq] at hb
    exact decodeHexPairs_length _ _ hb
  · intro keccak a n e
    simp only [ActionHash]
    cases hab : AddressToBytes s with
    | ok b =>
      constructor
      · rintro ⟨err, herr⟩
        cases e <;> cases herr
      · rintro ⟨err, herr⟩
        cases herr
    | error err =>
      constructor
      · intro _
        exact ⟨err, rfl⟩
      · intro _
        cases e <;> exact ⟨_, rfl⟩

/-- C8 witness: the well-formed test vault address decodes without
error to 20 bytes, and an address with a bad hex pair makes `ActionHash`
fail. -/
theorem actionHash_vault_error_characterization_witness :
    vaultFixtureBytes.length = (addrContent vaultFixture).length / 2 ∧
    pairsOk (addrContent "0xzz") = false ∧
    (∃ err, ActionHash (fun l => l) (Val.bool true) (some "0xzz") 0 none = .error err) := by
  refine ⟨?_, by decide, ?_⟩
  · exact (actionHash_vault_error_characterization vaultFixture).2.1 vaultFixtureBytes
      (by decide)
  · exact ((actionHash_vault_error_characterization "0xzz").2.2 (fun l => l)
      (Val.bool true) 0 none).mpr
      (((actionHash_vault_error_characterization "0xzz").1).mpr (by decide))

end HlGo
